import Mathlib

/-!
Verification of the inventory-ledger and billing core of the
Inventory-Billing-System repository (src/phase3.py, with src/phase1.py as an
earlier revision of the same handlers).  The MongoDB collections `inventory`,
`bills` and `inventory_log` are modelled as lists inside a `DBState`; the
Streamlit form handlers become pure state-transforming functions.  Monetary
values are modelled as exact rationals (the source uses Python floats; all
facts proved here are facts of the exact arithmetic the source expresses),
quantities as integers.  MongoDB's `update_one` / `delete_one`, which touch
the first matching document, are modelled by `updateFirstItem`,
`updateFirstBill` and `deleteFirstBill`; `find_one` is `findItem` / `findBill`.
Timestamps and generated ids are threaded as parameters where a claim needs
them and omitted where no claim mentions them (log_id, log timestamps).
-/

/-- A document of the `inventory` collection (phase3.py, add-item handler):
`item_id`, `item_name`, `purchase_price`, `selling_price`, `quantity`.
The `created_at` field is never read by the ledger logic and is omitted. -/
structure InventoryItem where
  item_id : String
  item_name : String
  purchase_price : ℚ
  selling_price : ℚ
  quantity : Int
deriving DecidableEq

/-- A document of the `inventory_log` collection, as written by
`log_inventory_change` (phase3.py).  `log_id` and `timestamp` are generated
noise no claim mentions and are omitted. -/
structure InventoryLogEntry where
  item_id : String
  item_name : String
  quantity_change : Int
  purchase_cost_change : ℚ
  reason : String
deriving DecidableEq

/-- A persisted bill line item: the billing handler strips `purchase_price`
from each line before persisting (phase3.py, `final_bill_items`). -/
structure BillLine where
  item_id : String
  item_name : String
  quantity : Int
  selling_price : ℚ
deriving DecidableEq

/-- An in-memory bill line as assembled by the billing page
(`bill_items_with_qty`), still carrying the purchase-price snapshot. -/
structure BillLineDraft where
  item_id : String
  item_name : String
  quantity : Int
  selling_price : ℚ
  purchase_price : ℚ
deriving DecidableEq

/-- A document of the `bills` collection (phase3.py, `bill_data` /
`updated_bill_data`).  `last_edited_by` is absent on freshly created bills,
hence an `Option`.  `timestamp` is an abstract instant (integer). -/
structure Bill where
  bill_id : String
  items : List BillLine
  total_purchase_cost : ℚ
  total_sell_price : ℚ
  profit : ℚ
  payment_mode : String
  payment_status : String
  customer_name : String
  created_by : String
  last_edited_by : Option String
  timestamp : Int
deriving DecidableEq

/-- The three collections the ledger/billing core mutates. -/
structure DBState where
  inventory : List InventoryItem
  bills : List Bill
  logs : List InventoryLogEntry
deriving DecidableEq

/-- The empty database. -/
def dbEmpty : DBState := { inventory := [], bills := [], logs := [] }

/-- Model of `inventory_collection.find_one({"item_id": id})`: the first
matching document. -/
def findItem : List InventoryItem → String → Option InventoryItem
  | [], _ => none
  | i :: rest, id => if i.item_id = id then some i else findItem rest id

/-- Model of `bills_collection.find_one({"bill_id": id})` (equivalently, the
iteration of `view_bills_page` locating the bill): first match. -/
def findBill : List Bill → String → Option Bill
  | [], _ => none
  | b :: rest, id => if b.bill_id = id then some b else findBill rest id

/-- Model of `inventory_collection.update_one({"item_id": id}, ...)`:
apply `f` to the first document whose `item_id` matches. -/
def updateFirstItem : List InventoryItem → String → (InventoryItem → InventoryItem) → List InventoryItem
  | [], _, _ => []
  | i :: rest, id, f => if i.item_id = id then f i :: rest else i :: updateFirstItem rest id f

/-- Model of `bills_collection.update_one({"bill_id": id}, {"$set": ...})`. -/
def updateFirstBill : List Bill → String → (Bill → Bill) → List Bill
  | [], _, _ => []
  | b :: rest, id, f => if b.bill_id = id then f b :: rest else b :: updateFirstBill rest id f

/-- Model of `bills_collection.delete_one({"bill_id": id})`. -/
def deleteFirstBill : List Bill → String → List Bill
  | [], _ => []
  | b :: rest, id => if b.bill_id = id then rest else b :: deleteFirstBill rest id

/-- The list of `item_id`s of the inventory collection. -/
def itemIds (inv : List InventoryItem) : List String :=
  inv.map (fun i => i.item_id)

/-- Purchase price of the first inventory document with the given id
(0 if absent; only used where the item exists). -/
def purchasePriceOf (inv : List InventoryItem) (id : String) : ℚ :=
  match findItem inv id with
  | some i => i.purchase_price
  | none => 0

/-- The exact reason string of the Correction option of the update form. -/
def correctionReason : String := "Correction (e.g., damaged goods, recount)"

/-- The reason string written by the bill-deletion handler:
`f"Bill Deletion Reversal ({bill['bill_id']})"`. -/
def reversalReason (billId : String) : String :=
  "Bill Deletion Reversal (" ++ billId ++ ")"

/-- The Add-New-Item handler (phase3.py lines 113-126): rejects an empty name
or `selling_price < purchase_price`; otherwise inserts the item and appends an
Initial Stock log entry with `quantity_change = quantity` and
`purchase_cost_change = purchase_price * quantity`. -/
def createItem (s : DBState) (itemId itemName : String)
    (purchasePrice sellingPrice : ℚ) (qty : Int) : Except String DBState :=
  if itemName = "" then
    Except.error "Please enter an item name."
  else if sellingPrice < purchasePrice then
    Except.error "Selling price should not be less than purchase price."
  else
    let newItem : InventoryItem :=
      { item_id := itemId, item_name := itemName, purchase_price := purchasePrice,
        selling_price := sellingPrice, quantity := qty }
    let newLog : InventoryLogEntry :=
      { item_id := itemId, item_name := itemName, quantity_change := qty,
        purchase_cost_change := purchasePrice * (qty : ℚ), reason := "Initial Stock" }
    Except.ok { s with inventory := s.inventory ++ [newItem], logs := s.logs ++ [newLog] }

/-- The state the Add-New-Item handler leaves behind: on a validation warning
nothing is written and the collections stay as they were. -/
def runCreateItem (s : DBState) (itemId itemName : String)
    (purchasePrice sellingPrice : ℚ) (qty : Int) : DBState :=
  match createItem s itemId itemName purchasePrice sellingPrice qty with
  | Except.ok s' => s'
  | Except.error _ => s

/-- The `cost_change` computation of the Update-Existing-Item handler
(phase3.py lines 164-168): Restock prices a positive delta at the (possibly
new) purchase price; Correction prices any delta at the current purchase
price; everything else costs 0. -/
def adjustCostChange (reason : String) (oldPurchasePrice newPurchasePrice : ℚ)
    (quantityChange : Int) : ℚ :=
  if reason = "Restock" ∧ 0 < quantityChange then
    newPurchasePrice * (quantityChange : ℚ)
  else if reason = correctionReason then
    oldPurchasePrice * (quantityChange : ℚ)
  else 0

/-- The Price Revaluation log block (phase3.py lines 158-161): if the purchase
price changed, a revaluation entry with `quantity_change = 0` and
`purchase_cost_change = (new - old) * current quantity` is appended - but only
when that product is nonzero. -/
def revalLogEntries (item : InventoryItem) (newPurchasePrice : ℚ) : List InventoryLogEntry :=
  if ¬ newPurchasePrice = item.purchase_price then
    if ¬ (newPurchasePrice - item.purchase_price) * (item.quantity : ℚ) = 0 then
      [{ item_id := item.item_id, item_name := item.item_name, quantity_change := 0,
         purchase_cost_change := (newPurchasePrice - item.purchase_price) * (item.quantity : ℚ),
         reason := "Price Revaluation" }]
    else []
  else []

/-- The quantity-change log block (phase3.py lines 163-170): with a nonzero
delta and a reason other than No Change, a log entry is appended - but only
when the computed `cost_change` is nonzero. -/
def quantityLogEntries (item : InventoryItem) (quantityChange : Int) (reason : String)
    (newPurchasePrice : ℚ) : List InventoryLogEntry :=
  if ¬ quantityChange = 0 ∧ ¬ reason = "No Change" then
    if ¬ adjustCostChange reason item.purchase_price newPurchasePrice quantityChange = 0 then
      [{ item_id := item.item_id, item_name := item.item_name, quantity_change := quantityChange,
         purchase_cost_change := adjustCostChange reason item.purchase_price newPurchasePrice quantityChange,
         reason := reason }]
    else []
  else []

/-- The single `update_one` payload of the update form (phase3.py lines
172-180): `$set` of each changed price and `$inc` of the quantity, applied
to the matched document. -/
def applyItemUpdate (item : InventoryItem) (quantityChange : Int) (reason : String)
    (newPurchasePrice newSellingPrice : ℚ) (i : InventoryItem) : InventoryItem :=
  { i with
    purchase_price := if ¬ newPurchasePrice = item.purchase_price then newPurchasePrice else i.purchase_price,
    selling_price := if ¬ newSellingPrice = item.selling_price then newSellingPrice else i.selling_price,
    quantity := if ¬ quantityChange = 0 ∧ ¬ reason = "No Change" then i.quantity + quantityChange else i.quantity }

/-- The Update-Existing-Item handler (phase3.py lines 157-184): revaluation
log, quantity-change log, then one combined `$set`/`$inc` update of the item
(skipped when the payload is empty). -/
def updateItem (s : DBState) (itemId : String) (quantityChange : Int) (reason : String)
    (newPurchasePrice newSellingPrice : ℚ) : DBState :=
  match findItem s.inventory itemId with
  | none => s
  | some item =>
    { s with
      logs := s.logs ++ revalLogEntries item newPurchasePrice
        ++ quantityLogEntries item quantityChange reason newPurchasePrice,
      inventory :=
        if (¬ newPurchasePrice = item.purchase_price ∨ ¬ newSellingPrice = item.selling_price)
            ∨ (¬ quantityChange = 0 ∧ ¬ reason = "No Change") then
          updateFirstItem s.inventory itemId
            (applyItemUpdate item quantityChange reason newPurchasePrice newSellingPrice)
        else s.inventory }

/-- The spec's `adjustQuantity(itemId, delta, reason)`: the update form
submitted with both price fields left at their current values. -/
def adjustQuantity (s : DBState) (itemId : String) (quantityChange : Int) (reason : String) : DBState :=
  match findItem s.inventory itemId with
  | none => s
  | some item => updateItem s itemId quantityChange reason item.purchase_price item.selling_price

/-- Dropping the purchase-price snapshot from a line before persisting it
(`final_bill_items = [{k: v for k, v in item.items() if k != 'purchase_price'} ...]`). -/
def stripPurchase (l : BillLineDraft) : BillLine :=
  { item_id := l.item_id, item_name := l.item_name, quantity := l.quantity,
    selling_price := l.selling_price }

/-- `total_purchase_cost = sum(item['quantity'] * item['purchase_price'] ...)`
over the drafted lines (phase3.py line 282). -/
def billPurchaseCost : List BillLineDraft → ℚ
  | [] => 0
  | l :: rest => (l.quantity : ℚ) * l.purchase_price + billPurchaseCost rest

/-- The same total priced against the current inventory documents, used to
state that the drafted snapshot prices are the call-time prices. -/
def snapPurchaseCost (inv : List InventoryItem) : List BillLineDraft → ℚ
  | [] => 0
  | l :: rest => (l.quantity : ℚ) * purchasePriceOf inv l.item_id + snapPurchaseCost inv rest

/-- `$inc {"quantity": -item['quantity']}` for one persisted line
(phase3.py line 314). -/
def deductLine (inv : List InventoryItem) (l : BillLine) : List InventoryItem :=
  updateFirstItem inv l.item_id (fun i => { i with quantity := i.quantity - l.quantity })

/-- `$inc {"quantity": item['quantity']}` for one persisted line, as done by
bill deletion and by the transaction reset. -/
def restoreLine (inv : List InventoryItem) (l : BillLine) : List InventoryItem :=
  updateFirstItem inv l.item_id (fun i => { i with quantity := i.quantity + l.quantity })

/-- The Generate-Bill branch (phase3.py lines 278-316): requires a line,
computes `total_purchase_cost` and `profit = total_sell_price - total_purchase_cost`,
persists the bill with purchase prices stripped from its lines and
`created_by = actor`, then decrements each referenced item's quantity by the
line quantity.  No inventory log entry is written. -/
def createBill (s : DBState) (billId : String) (lines : List BillLineDraft)
    (totalSellPrice : ℚ) (paymentMode paymentStatus : String) (sellAtCost : Bool)
    (customerName actor : String) (now : Int) : Except String DBState :=
  if lines = [] then
    Except.error "Please select at least one item for the bill."
  else
    let finalItems := lines.map stripPurchase
    let newBill : Bill :=
      { bill_id := billId, items := finalItems,
        total_purchase_cost := billPurchaseCost lines,
        total_sell_price := totalSellPrice,
        profit := totalSellPrice - billPurchaseCost lines,
        payment_mode := paymentMode, payment_status := paymentStatus,
        customer_name := if sellAtCost then customerName else "",
        created_by := actor, last_edited_by := none, timestamp := now }
    Except.ok { s with
      bills := s.bills ++ [newBill],
      inventory := finalItems.foldl deductLine s.inventory }

/-- The per-item net delta dictionary of the Update-Bill branch
(`inventory_deltas`, phase3.py lines 288-290): a Python dict keyed by
`item_id`, modelled as an association list with insertion order. -/
def addDelta : List (String × Int) → String → Int → List (String × Int)
  | [], id, d => [(id, d)]
  | (k, v) :: rest, id, d =>
    if k = id then (k, v + d) :: rest else (k, v) :: addDelta rest id d

/-- Value stored under a key of the delta dictionary (0 when absent). -/
def lookupDelta : List (String × Int) → String → Int
  | [], _ => 0
  | (k, v) :: rest, id => if k = id then v else lookupDelta rest id

/-- The keys of the delta dictionary. -/
def deltaKeys (m : List (String × Int)) : List String :=
  m.map (fun p => p.1)

/-- Add back every original line quantity and subtract every new line
quantity, per item (phase3.py lines 288-290). -/
def billDeltas (originalItems newItems : List BillLine) : List (String × Int) :=
  newItems.foldl (fun m l => addDelta m l.item_id (-l.quantity))
    (originalItems.foldl (fun m l => addDelta m l.item_id l.quantity) [])

/-- Apply every nonzero net delta with one `$inc` per item
(phase3.py lines 291-292). -/
def applyDeltas (m : List (String × Int)) (inv : List InventoryItem) : List InventoryItem :=
  m.foldl (fun inv2 p =>
    if ¬ p.2 = 0 then
      updateFirstItem inv2 p.1 (fun i => { i with quantity := i.quantity + p.2 })
    else inv2) inv

/-- The Update-Bill branch (phase3.py lines 286-304): computes per-item net
deltas between the original and the new lines, applies each nonzero delta to
the inventory, and overwrites the bill document in place.  This function is
the `$set` payload (`updated_bill_data`, phase3.py lines 294-299): it
overwrites the lines, totals, profit, payment fields, customer name,
timestamp and `last_edited_by` - leaving every other field (notably
`created_by`) alone. -/
def billEditApply (lines : List BillLineDraft) (totalSellPrice : ℚ)
    (paymentMode paymentStatus : String) (sellAtCost : Bool)
    (customerName actor : String) (now : Int) (b : Bill) : Bill :=
  { b with
    items := lines.map stripPurchase,
    total_purchase_cost := billPurchaseCost lines,
    total_sell_price := totalSellPrice,
    profit := totalSellPrice - billPurchaseCost lines,
    payment_mode := paymentMode, payment_status := paymentStatus,
    customer_name := if sellAtCost then customerName else "",
    timestamp := now, last_edited_by := some actor }

/-- The Update-Bill branch (phase3.py lines 286-304): computes per-item net
deltas between the original and the new lines, applies each nonzero delta to
the inventory, and overwrites the bill document in place. -/
def editBill (s : DBState) (billId : String) (lines : List BillLineDraft)
    (totalSellPrice : ℚ) (paymentMode paymentStatus : String) (sellAtCost : Bool)
    (customerName actor : String) (now : Int) : DBState :=
  match findBill s.bills billId with
  | none => s
  | some originalBill =>
    { s with
      inventory := applyDeltas (billDeltas originalBill.items (lines.map stripPurchase)) s.inventory,
      bills := updateFirstBill s.bills billId
        (billEditApply lines totalSellPrice paymentMode paymentStatus sellAtCost customerName actor now) }

/-- One iteration of the bill-deletion loop (phase3.py lines 344-347):
`$inc` the item's quantity by the line quantity, re-read the item, and append
a Bill Deletion Reversal log entry priced at the re-read (current) purchase
price.  The re-read failing (referenced item missing) is the source crashing
with a KeyError, modelled as `none`. -/
def deleteBillLoop (billId : String) : List BillLine → DBState → Option DBState
  | [], st => some st
  | item :: rest, st =>
    let inv := restoreLine st.inventory item
    match findItem inv item.item_id with
    | none => none
    | some itemDetails =>
      let entry : InventoryLogEntry :=
        { item_id := item.item_id, item_name := item.item_name,
          quantity_change := item.quantity,
          purchase_cost_change := itemDetails.purchase_price * (item.quantity : ℚ),
          reason := reversalReason billId }
      deleteBillLoop billId rest { st with inventory := inv, logs := st.logs ++ [entry] }

/-- The Delete button handler (phase3.py lines 343-350): per line, restore the
stock and append a reversal log entry, then delete the bill document. -/
def deleteBill (s : DBState) (billId : String) : Option DBState :=
  match findBill s.bills billId with
  | none => some s
  | some bill =>
    (deleteBillLoop billId bill.items s).map
      (fun st => { st with bills := deleteFirstBill st.bills billId })

/-- The Reset-All-Transactions handler (phase3.py lines 463-467): for every
line of every bill, `$inc` the referenced item's quantity by the line
quantity, then delete all bills.  No log entries are written. -/
def resetAllStock (s : DBState) : DBState :=
  { s with
    inventory := s.bills.foldl (fun inv b => b.items.foldl restoreLine inv) s.inventory,
    bills := [] }

/-- The log entries a successful bill deletion appends, priced against the
given (deletion-time) inventory. -/
def reversalEntries (inv : List InventoryItem) (billId : String)
    (items : List BillLine) : List InventoryLogEntry :=
  items.map (fun l =>
    { item_id := l.item_id, item_name := l.item_name, quantity_change := l.quantity,
      purchase_cost_change := purchasePriceOf inv l.item_id * (l.quantity : ℚ),
      reason := reversalReason billId })

/-- A timestamp for the business-day bucketing: an absolute calendar-day
index (consecutive calendar dates differ by 1) plus a wall-clock hour and
minute. -/
structure Timestamp where
  day : Int
  hour : Nat
  minute : Nat
  hour_lt : hour < 24
  minute_lt : minute < 60

/-- `get_business_date` (phase3.py lines 58-62): timestamps with hour < 6
belong to the previous calendar date. -/
def get_business_date (ts : Timestamp) : Int :=
  if ts.hour < 6 then ts.day - 1 else ts.day

/-- Minutes elapsed since midnight; 06:00 is minute 360. -/
def minutesOfDay (ts : Timestamp) : Nat :=
  60 * ts.hour + ts.minute

/-- Sum of `quantity` over the inventory documents bearing the given
`item_id`.  Generated ids are unique, so on reachable states this is the
item's quantity. -/
def itemQtySum : List InventoryItem → String → Int
  | [], _ => 0
  | i :: rest, k => (if i.item_id = k then i.quantity else 0) + itemQtySum rest k

/-- Sum of `quantity_change` over the log entries for the given item. -/
def logQuantitySum : List InventoryLogEntry → String → Int
  | [], _ => 0
  | e :: rest, k => (if e.item_id = k then e.quantity_change else 0) + logQuantitySum rest k

/-- Sum of line quantities for the given item over a list of bill lines. -/
def billLineQtyL : List BillLine → String → Int
  | [], _ => 0
  | l :: rest, k => (if l.item_id = k then l.quantity else 0) + billLineQtyL rest k

/-- Sum of line quantities for the given item over all currently-open bills. -/
def openBillQuantitySum : List Bill → String → Int
  | [], _ => 0
  | b :: rest, k => billLineQtyL b.items k + openBillQuantitySum rest k

/-- The section-3 invariant of the spec, for one item id: on-hand quantity
equals the log total minus the open-bill reservation total. -/
def ledgerInvariant (s : DBState) (itemId : String) : Prop :=
  itemQtySum s.inventory itemId =
    logQuantitySum s.logs itemId - openBillQuantitySum s.bills itemId

/-- The mutating ledger/billing operations of the system, with generated ids
and timestamps as explicit data. -/
inductive LedgerOp where
  | create (itemId itemName : String) (purchasePrice sellingPrice : ℚ) (qty : Int)
  | update (itemId : String) (quantityChange : Int) (reason : String)
      (newPurchasePrice newSellingPrice : ℚ)
  | mkBill (billId : String) (lines : List BillLineDraft) (totalSellPrice : ℚ)
      (paymentMode paymentStatus : String) (sellAtCost : Bool)
      (customerName actor : String) (now : Int)
  | edBill (billId : String) (lines : List BillLineDraft) (totalSellPrice : ℚ)
      (paymentMode paymentStatus : String) (sellAtCost : Bool)
      (customerName actor : String) (now : Int)
  | delBill (billId : String)
  | reset

/-- One step of the system: `none` when the handler rejects the input or
crashes. -/
def applyOp (s : DBState) : LedgerOp → Option DBState
  | LedgerOp.create itemId itemName pp sp qty =>
    (createItem s itemId itemName pp sp qty).toOption
  | LedgerOp.update itemId qc reason npp nsp =>
    some (updateItem s itemId qc reason npp nsp)
  | LedgerOp.mkBill billId lines tsp pm ps sac cn actor now =>
    (createBill s billId lines tsp pm ps sac cn actor now).toOption
  | LedgerOp.edBill billId lines tsp pm ps sac cn actor now =>
    some (editBill s billId lines tsp pm ps sac cn actor now)
  | LedgerOp.delBill billId => deleteBill s billId
  | LedgerOp.reset => resetAllStock s

/-- The operations that do preserve the section-3 invariant, with the
side conditions under which they arise in the running system: bill lines are
drafted from existing inventory documents, and a quantity adjustment is
accompanied by a log entry (`adjustCostChange` nonzero) unless it is
suppressed outright.  `delBill` is excluded: it never preserves the
invariant (see the counterexample). -/
def preservingOp (s : DBState) : LedgerOp → Prop
  | LedgerOp.create _ _ _ _ _ => True
  | LedgerOp.update itemId qc reason npp _ =>
    match findItem s.inventory itemId with
    | none => True
    | some item =>
      qc = 0 ∨ reason = "No Change" ∨
        ¬ adjustCostChange reason item.purchase_price npp qc = 0
  | LedgerOp.mkBill _ lines _ _ _ _ _ _ _ =>
    ∀ l ∈ lines, l.item_id ∈ itemIds s.inventory
  | LedgerOp.edBill billId lines _ _ _ _ _ _ _ =>
    (∀ l ∈ lines, l.item_id ∈ itemIds s.inventory) ∧
    (match findBill s.bills billId with
     | none => True
     | some bill => ∀ l ∈ bill.items, l.item_id ∈ itemIds s.inventory)
  | LedgerOp.delBill _ => False
  | LedgerOp.reset =>
    ∀ b ∈ s.bills, ∀ l ∈ b.items, l.item_id ∈ itemIds s.inventory

/-- Item A of the section-8 example: quantity 10, purchase 50, selling 80. -/
def itemA : InventoryItem :=
  { item_id := "ITEM-A", item_name := "A", purchase_price := 50, selling_price := 80, quantity := 10 }

/-- Item A after the 3-unit sale. -/
def itemA7 : InventoryItem :=
  { item_id := "ITEM-A", item_name := "A", purchase_price := 50, selling_price := 80, quantity := 7 }

/-- The Initial Stock log entry of item A. -/
def initLogA : InventoryLogEntry :=
  { item_id := "ITEM-A", item_name := "A", quantity_change := 10,
    purchase_cost_change := 500, reason := "Initial Stock" }

/-- The drafted 3-unit line of the example bill. -/
def draftA3 : BillLineDraft :=
  { item_id := "ITEM-A", item_name := "A", quantity := 3, selling_price := 80, purchase_price := 50 }

/-- The persisted 3-unit line (purchase price stripped). -/
def lineA3 : BillLine :=
  { item_id := "ITEM-A", item_name := "A", quantity := 3, selling_price := 80 }

/-- The example bill: 3 units of A at total sell 240, cost 150, profit 90. -/
def billA3 : Bill :=
  { bill_id := "BILL-1", items := [lineA3], total_purchase_cost := 150,
    total_sell_price := 240, profit := 90, payment_mode := "Cash",
    payment_status := "Paid", customer_name := "", created_by := "admin",
    last_edited_by := none, timestamp := 0 }

/-- The store right after item A is created. -/
def stateA10 : DBState := { inventory := [itemA], bills := [], logs := [initLogA] }

/-- The store after the example bill is generated. -/
def stateA7 : DBState := { inventory := [itemA7], bills := [billA3], logs := [initLogA] }

/-- The reversal entry appended when the example bill is deleted:
quantity_change 3, purchase_cost_change 150. -/
def reversalLogA : InventoryLogEntry :=
  { item_id := "ITEM-A", item_name := "A", quantity_change := 3,
    purchase_cost_change := 150, reason := reversalReason "BILL-1" }

/-- The store after the example bill is deleted again. -/
def stateA10After : DBState :=
  { inventory := [itemA], bills := [], logs := [initLogA, reversalLogA] }

/-- An item with zero on-hand quantity (all stock sold), for the revaluation
counterexample. -/
def itemZ : InventoryItem :=
  { item_id := "ITEM-Z", item_name := "Z", purchase_price := 50, selling_price := 80, quantity := 0 }

/-- A store holding only the zero-quantity item. -/
def stateZ : DBState := { inventory := [itemZ], bills := [], logs := [] }

/-- An item with zero purchase price, for the Correction counterexample. -/
def itemF : InventoryItem :=
  { item_id := "ITEM-F", item_name := "F", purchase_price := 0, selling_price := 10, quantity := 4 }

/-- A store holding only the free item. -/
def stateF : DBState := { inventory := [itemF], bills := [], logs := [] }

/-- 05:30 on the day encoded 0 (read: 2024-03-02; day -1 is 2024-03-01). -/
def tsHalfPastFive : Timestamp :=
  { day := 0, hour := 5, minute := 30, hour_lt := by omega, minute_lt := by omega }

/-- 06:01 on the same day. -/
def tsJustPastSix : Timestamp :=
  { day := 0, hour := 6, minute := 1, hour_lt := by omega, minute_lt := by omega }

/-! Basic lemmas about the collection helpers. -/

/-- Item quantity totals add over list concatenation. -/
theorem itemQtySum_append (a b : List InventoryItem) (k : String) :
    itemQtySum (a ++ b) k = itemQtySum a k + itemQtySum b k := by
  induction a with
  | nil => simp [itemQtySum]
  | cons hd tl ih => simp only [List.cons_append, itemQtySum, List.append_eq, ih]; omega

/-- Log quantity totals add over list concatenation. -/
theorem logQuantitySum_append (a b : List InventoryLogEntry) (k : String) :
    logQuantitySum (a ++ b) k = logQuantitySum a k + logQuantitySum b k := by
  induction a with
  | nil => simp [logQuantitySum]
  | cons hd tl ih => simp only [List.cons_append, logQuantitySum, List.append_eq, ih]; omega

/-- Open-bill reservation totals add over list concatenation. -/
theorem openBillQuantitySum_append (a b : List Bill) (k : String) :
    openBillQuantitySum (a ++ b) k = openBillQuantitySum a k + openBillQuantitySum b k := by
  induction a with
  | nil => simp [openBillQuantitySum]
  | cons hd tl ih => simp only [List.cons_append, openBillQuantitySum, List.append_eq, ih]; omega

/-- What a successful `findItem` returns: a member with the looked-up id. -/
theorem findItem_eq_some {inv : List InventoryItem} {id : String} {i : InventoryItem}
    (h : findItem inv id = some i) : i ∈ inv ∧ i.item_id = id := by
  induction inv with
  | nil => simp [findItem] at h
  | cons hd tl ih =>
    by_cases hh : hd.item_id = id
    · simp only [findItem, if_pos hh, Option.some.injEq] at h
      exact ⟨by simp [← h], by rw [← h]; exact hh⟩
    · simp only [findItem, if_neg hh] at h
      obtain ⟨hm, he⟩ := ih h
      exact ⟨List.mem_cons_of_mem _ hm, he⟩

/-- A found id is among the inventory ids. -/
theorem mem_itemIds_of_findItem {inv : List InventoryItem} {id : String} {i : InventoryItem}
    (h : findItem inv id = some i) : id ∈ itemIds inv := by
  obtain ⟨hm, he⟩ := findItem_eq_some h
  exact he ▸ List.mem_map_of_mem _ hm

/-- Lookup succeeds for any id present in the inventory. -/
theorem findItem_isSome_of_mem {inv : List InventoryItem} {id : String}
    (h : id ∈ itemIds inv) : ∃ i, findItem inv id = some i := by
  induction inv with
  | nil => simp [itemIds] at h
  | cons hd tl ih =>
    by_cases hh : hd.item_id = id
    · exact ⟨hd, by simp [findItem, hh]⟩
    · have h' : id ∈ itemIds tl := by
        simp only [itemIds, List.map_cons, List.mem_cons] at h
        rcases h with h | h
        · exact absurd h.symm hh
        · exact h
      obtain ⟨i, hi⟩ := ih h'
      exact ⟨i, by simp [findItem, hh, hi]⟩

/-- Updating the first matching item leaves the id column unchanged as long
as the update does not touch `item_id`. -/
theorem itemIds_updateFirstItem (inv : List InventoryItem) (id : String)
    (f : InventoryItem → InventoryItem) (hf : ∀ i, (f i).item_id = i.item_id) :
    itemIds (updateFirstItem inv id f) = itemIds inv := by
  induction inv with
  | nil => rfl
  | cons hd tl ih =>
    by_cases hh : hd.item_id = id
    · simp [updateFirstItem, hh, itemIds, hf]
    · simp only [updateFirstItem, if_neg hh, itemIds, List.map_cons]
      simp only [itemIds] at ih
      rw [ih]

/-- Effect of a first-match update on the per-id quantity total, when the
update shifts the quantity by `d` and the id is present. -/
theorem itemQtySum_updateFirstItem (inv : List InventoryItem) (id k : String)
    (f : InventoryItem → InventoryItem) (d : Int)
    (hfid : ∀ i, (f i).item_id = i.item_id)
    (hfq : ∀ i, (f i).quantity = i.quantity + d)
    (hmem : id ∈ itemIds inv) :
    itemQtySum (updateFirstItem inv id f) k =
      itemQtySum inv k + (if id = k then d else 0) := by
  induction inv with
  | nil => simp [itemIds] at hmem
  | cons hd tl ih =>
    by_cases hh : hd.item_id = id
    · simp only [updateFirstItem, if_pos hh, itemQtySum, hfid, hfq, hh]
      by_cases hk : id = k <;> simp only [hk, if_pos, if_neg, ite_true, ite_false] <;> omega
    · have hmem' : id ∈ itemIds tl := by
        simp only [itemIds, List.map_cons, List.mem_cons] at hmem
        rcases hmem with h | h
        · exact absurd h.symm hh
        · exact h
      simp only [updateFirstItem, if_neg hh, itemQtySum, ih hmem']
      omega

/-- A first-match update against an absent id is a no-op. -/
theorem updateFirstItem_not_mem (inv : List InventoryItem) (id : String)
    (f : InventoryItem → InventoryItem) (h : ¬ id ∈ itemIds inv) :
    updateFirstItem inv id f = inv := by
  induction inv with
  | nil => rfl
  | cons hd tl ih =>
    simp only [itemIds, List.map_cons, List.mem_cons, not_or] at h
    have hne : ¬ hd.item_id = id := fun hc => h.1 hc.symm
    simp only [updateFirstItem, if_neg hne]
    rw [ih (by simpa [itemIds] using h.2)]

/-- How `findItem` reads through a first-match update. -/
theorem findItem_updateFirstItem (inv : List InventoryItem) (id k : String)
    (f : InventoryItem → InventoryItem) (hf : ∀ i, (f i).item_id = i.item_id) :
    findItem (updateFirstItem inv id f) k =
      (findItem inv k).map (fun i => if i.item_id = id then f i else i) := by
  induction inv with
  | nil => rfl
  | cons hd tl ih =>
    by_cases hh : hd.item_id = id
    · by_cases hk : hd.item_id = k
      · rw [hh] at hk
        subst hk
        simp [updateFirstItem, findItem, hf, hh]
      · simp only [updateFirstItem, if_pos hh, findItem, hf, if_neg hk]
        cases hft : findItem tl k with
        | none => simp
        | some j =>
          have hj := (findItem_eq_some hft).2
          have hne : ¬ j.item_id = id := by
            rw [hj]; intro hc; exact hk (hh.trans hc.symm)
          simp [hne]
    · by_cases hk : hd.item_id = k
      · have hne : ¬ hd.item_id = id := hh
        simp only [updateFirstItem, if_neg hne, findItem, if_pos hk, Option.map_some]
        simp [hne]
      · simp only [updateFirstItem, if_neg hh, findItem, if_neg hk]
        exact ih

/-- A first-match update that does not touch ids or purchase prices leaves
every per-id purchase price unchanged. -/
theorem purchasePriceOf_updateFirstItem (inv : List InventoryItem) (id k : String)
    (f : InventoryItem → InventoryItem)
    (hfid : ∀ i, (f i).item_id = i.item_id)
    (hfp : ∀ i, (f i).purchase_price = i.purchase_price) :
    purchasePriceOf (updateFirstItem inv id f) k = purchasePriceOf inv k := by
  unfold purchasePriceOf
  rw [findItem_updateFirstItem inv id k f hfid]
  cases findItem inv k with
  | none => rfl
  | some j =>
    by_cases hj : j.item_id = id <;> simp [hj, hfp]

/-- What a successful `findBill` returns. -/
theorem findBill_eq_some {bills : List Bill} {id : String} {b : Bill}
    (h : findBill bills id = some b) : b ∈ bills ∧ b.bill_id = id := by
  induction bills with
  | nil => simp [findBill] at h
  | cons hd tl ih =>
    by_cases hh : hd.bill_id = id
    · simp only [findBill, if_pos hh, Option.some.injEq] at h
      exact ⟨by simp [← h], by rw [← h]; exact hh⟩
    · simp only [findBill, if_neg hh] at h
      obtain ⟨hm, he⟩ := ih h
      exact ⟨List.mem_cons_of_mem _ hm, he⟩

/-- Re-finding the edited bill returns the updated document. -/
theorem findBill_updateFirstBill (bills : List Bill) (id : String) (f : Bill → Bill)
    (hf : ∀ b, (f b).bill_id = b.bill_id) :
    findBill (updateFirstBill bills id f) id = (findBill bills id).map f := by
  induction bills with
  | nil => rfl
  | cons hd tl ih =>
    by_cases hh : hd.bill_id = id
    · simp [updateFirstBill, hh, findBill, hf]
    · simp only [updateFirstBill, if_neg hh, findBill, if_neg hh]
      exact ih

/-- Effect of an in-place bill update on the reservation total. -/
theorem openBillQuantitySum_updateFirstBill (bills : List Bill) (id : String)
    (f : Bill → Bill) (b : Bill) (k : String)
    (hfind : findBill bills id = some b) :
    openBillQuantitySum (updateFirstBill bills id f) k =
      openBillQuantitySum bills k - billLineQtyL b.items k + billLineQtyL (f b).items k := by
  induction bills with
  | nil => simp [findBill] at hfind
  | cons hd tl ih =>
    by_cases hh : hd.bill_id = id
    · simp only [findBill, if_pos hh, Option.some.injEq] at hfind
      subst hfind
      simp only [updateFirstBill, if_pos hh, openBillQuantitySum]
      omega
    · simp only [findBill, if_neg hh] at hfind
      simp only [updateFirstBill, if_neg hh, openBillQuantitySum, ih hfind]
      omega

/-! Lemmas about the per-line stock mutations and their folds. -/

/-- Restoring a line's stock does not touch the id column. -/
theorem itemIds_restoreLine (inv : List InventoryItem) (l : BillLine) :
    itemIds (restoreLine inv l) = itemIds inv :=
  itemIds_updateFirstItem inv l.item_id _ (fun _ => rfl)

/-- Deducting a line's stock does not touch the id column. -/
theorem itemIds_deductLine (inv : List InventoryItem) (l : BillLine) :
    itemIds (deductLine inv l) = itemIds inv :=
  itemIds_updateFirstItem inv l.item_id _ (fun _ => rfl)

/-- Restoring one line adds its quantity to the per-id total. -/
theorem itemQtySum_restoreLine (inv : List InventoryItem) (l : BillLine) (k : String)
    (hmem : l.item_id ∈ itemIds inv) :
    itemQtySum (restoreLine inv l) k =
      itemQtySum inv k + (if l.item_id = k then l.quantity else 0) :=
  itemQtySum_updateFirstItem inv l.item_id k _ l.quantity (fun _ => rfl) (fun _ => rfl) hmem

/-- Deducting one line subtracts its quantity from the per-id total. -/
theorem itemQtySum_deductLine (inv : List InventoryItem) (l : BillLine) (k : String)
    (hmem : l.item_id ∈ itemIds inv) :
    itemQtySum (deductLine inv l) k =
      itemQtySum inv k + (if l.item_id = k then -l.quantity else 0) :=
  itemQtySum_updateFirstItem inv l.item_id k _ (-l.quantity) (fun _ => rfl)
    (fun i => by
      show i.quantity - l.quantity = i.quantity + -l.quantity
      omega) hmem

/-- Id column through a restore fold. -/
theorem itemIds_foldl_restoreLine (lines : List BillLine) (inv : List InventoryItem) :
    itemIds (lines.foldl restoreLine inv) = itemIds inv := by
  induction lines generalizing inv with
  | nil => rfl
  | cons hd tl ih => rw [List.foldl_cons, ih, itemIds_restoreLine]

/-- Id column through a deduct fold. -/
theorem itemIds_foldl_deductLine (lines : List BillLine) (inv : List InventoryItem) :
    itemIds (lines.foldl deductLine inv) = itemIds inv := by
  induction lines generalizing inv with
  | nil => rfl
  | cons hd tl ih => rw [List.foldl_cons, ih, itemIds_deductLine]

/-- Restoring every line of a bill adds the bill's per-id reservation. -/
theorem itemQtySum_foldl_restoreLine (lines : List BillLine) (inv : List InventoryItem)
    (k : String) (hex : ∀ l ∈ lines, l.item_id ∈ itemIds inv) :
    itemQtySum (lines.foldl restoreLine inv) k = itemQtySum inv k + billLineQtyL lines k := by
  induction lines generalizing inv with
  | nil => simp [billLineQtyL]
  | cons hd tl ih =>
    have h1 : hd.item_id ∈ itemIds inv := hex hd (List.mem_cons_self _ _)
    have hex' : ∀ l ∈ tl, l.item_id ∈ itemIds (restoreLine inv hd) := by
      intro l hl; rw [itemIds_restoreLine]; exact hex l (List.mem_cons_of_mem _ hl)
    rw [List.foldl_cons, ih _ hex', itemQtySum_restoreLine inv hd k h1]
    simp only [billLineQtyL]
    by_cases hk : hd.item_id = k
    · simp only [if_pos hk]; omega
    · simp only [if_neg hk]; omega

/-- Deducting every line of a bill subtracts the bill's per-id reservation. -/
theorem itemQtySum_foldl_deductLine (lines : List BillLine) (inv : List InventoryItem)
    (k : String) (hex : ∀ l ∈ lines, l.item_id ∈ itemIds inv) :
    itemQtySum (lines.foldl deductLine inv) k = itemQtySum inv k - billLineQtyL lines k := by
  induction lines generalizing inv with
  | nil => simp [billLineQtyL]
  | cons hd tl ih =>
    have h1 : hd.item_id ∈ itemIds inv := hex hd (List.mem_cons_self _ _)
    have hex' : ∀ l ∈ tl, l.item_id ∈ itemIds (deductLine inv hd) := by
      intro l hl; rw [itemIds_deductLine]; exact hex l (List.mem_cons_of_mem _ hl)
    rw [List.foldl_cons, ih _ hex', itemQtySum_deductLine inv hd k h1]
    simp only [billLineQtyL]
    by_cases hk : hd.item_id = k
    · simp only [if_pos hk]; omega
    · simp only [if_neg hk]; omega

/-- Id column through the reset's nested fold. -/
theorem itemIds_foldl_bills (bills : List Bill) (inv : List InventoryItem) :
    itemIds (bills.foldl (fun inv2 b => b.items.foldl restoreLine inv2) inv) = itemIds inv := by
  induction bills generalizing inv with
  | nil => rfl
  | cons hd tl ih => rw [List.foldl_cons, ih, itemIds_foldl_restoreLine]

/-- The reset's nested fold adds back the whole open reservation per id. -/
theorem itemQtySum_foldl_bills (bills : List Bill) (inv : List InventoryItem) (k : String)
    (hex : ∀ b ∈ bills, ∀ l ∈ b.items, l.item_id ∈ itemIds inv) :
    itemQtySum (bills.foldl (fun inv2 b => b.items.foldl restoreLine inv2) inv) k =
      itemQtySum inv k + openBillQuantitySum bills k := by
  induction bills generalizing inv with
  | nil => simp [openBillQuantitySum]
  | cons hd tl ih =>
    have h1 : ∀ l ∈ hd.items, l.item_id ∈ itemIds inv := hex hd (List.mem_cons_self _ _)
    have hex' : ∀ b ∈ tl, ∀ l ∈ b.items, l.item_id ∈ itemIds (hd.items.foldl restoreLine inv) := by
      intro b hb l hl
      rw [itemIds_foldl_restoreLine]
      exact hex b (List.mem_cons_of_mem _ hb) l hl
    rw [List.foldl_cons, ih _ hex', itemQtySum_foldl_restoreLine hd.items inv k h1]
    simp only [openBillQuantitySum]
    omega

/-! Lemmas about the edit-bill delta dictionary. -/

/-- Updating one key of the dictionary shifts exactly that key's value. -/
theorem lookupDelta_addDelta (m : List (String × Int)) (id : String) (d : Int) (k : String) :
    lookupDelta (addDelta m id d) k = lookupDelta m k + (if id = k then d else 0) := by
  induction m with
  | nil =>
    by_cases h : id = k <;> simp [addDelta, lookupDelta, h]
  | cons p rest ih =>
    obtain ⟨k0, v0⟩ := p
    by_cases h0 : k0 = id
    · subst h0
      by_cases hk : k0 = k <;> simp [addDelta, lookupDelta, hk]
    · by_cases hk : k0 = k
      · have hik : ¬ id = k := fun hc => h0 (hk.trans hc.symm)
        simp only [addDelta, if_neg h0, lookupDelta, if_pos hk, if_neg hik, add_zero]
      · simp only [addDelta, if_neg h0, lookupDelta, if_neg hk, ih]

/-- Absent keys store 0. -/
theorem lookupDelta_not_mem (m : List (String × Int)) (k : String)
    (h : ¬ k ∈ deltaKeys m) : lookupDelta m k = 0 := by
  induction m with
  | nil => rfl
  | cons p rest ih =>
    obtain ⟨k0, v0⟩ := p
    simp only [deltaKeys, List.map_cons, List.mem_cons, not_or] at h
    have hk : ¬ k0 = k := fun hc => h.1 hc.symm
    simp only [lookupDelta, if_neg hk]
    exact ih (by simpa [deltaKeys] using h.2)

/-- Key membership through `addDelta`. -/
theorem mem_deltaKeys_addDelta (m : List (String × Int)) (id : String) (d : Int) (k : String) :
    k ∈ deltaKeys (addDelta m id d) ↔ k ∈ deltaKeys m ∨ k = id := by
  induction m with
  | nil => simp [addDelta, deltaKeys]
  | cons p rest ih =>
    obtain ⟨k0, v0⟩ := p
    by_cases h0 : k0 = id
    · subst h0
      have hstep : addDelta ((k0, v0) :: rest) k0 d = (k0, v0 + d) :: rest := by
        simp [addDelta]
      rw [hstep]
      simp only [deltaKeys, List.map_cons, List.mem_cons]
      tauto
    · have hstep : addDelta ((k0, v0) :: rest) id d = (k0, v0) :: addDelta rest id d := by
        simp [addDelta, h0]
      rw [hstep]
      simp only [deltaKeys, List.map_cons, List.mem_cons]
      simp only [deltaKeys] at ih
      rw [ih]
      tauto

/-- `addDelta` keeps the keys distinct. -/
theorem nodup_deltaKeys_addDelta (m : List (String × Int)) (id : String) (d : Int)
    (h : (deltaKeys m).Nodup) : (deltaKeys (addDelta m id d)).Nodup := by
  induction m with
  | nil => simp [addDelta, deltaKeys]
  | cons p rest ih =>
    obtain ⟨k0, v0⟩ := p
    simp only [deltaKeys, List.map_cons, List.nodup_cons] at h
    by_cases h0 : k0 = id
    · subst h0
      simpa [addDelta, deltaKeys, List.nodup_cons] using h
    · simp only [addDelta, if_neg h0, deltaKeys, List.map_cons, List.nodup_cons]
      refine ⟨?_, ih h.2⟩
      intro hc
      rw [show (addDelta rest id d).map (fun p => p.1) = deltaKeys (addDelta rest id d) from rfl,
        mem_deltaKeys_addDelta] at hc
      rcases hc with hc | hc
      · exact h.1 hc
      · exact h0 hc

/-- In a dictionary with distinct keys, every stored pair is the lookup of
its key. -/
theorem lookupDelta_of_mem (m : List (String × Int)) (p : String × Int)
    (hnd : (deltaKeys m).Nodup) (hm : p ∈ m) : lookupDelta m p.1 = p.2 := by
  induction m with
  | nil => simp at hm
  | cons q rest ih =>
    obtain ⟨k0, v0⟩ := q
    simp only [deltaKeys, List.map_cons, List.nodup_cons] at hnd
    rcases List.mem_cons.mp hm with h | h
    · subst h
      simp [lookupDelta]
    · have hne : ¬ k0 = p.1 := by
        intro hc
        exact hnd.1 (hc ▸ List.mem_map_of_mem (fun p => p.1) h)
      simp only [lookupDelta, if_neg hne]
      exact ih hnd.2 h

/-- Accumulating original line quantities into the dictionary. -/
theorem lookupDelta_foldl_add (lines : List BillLine) (m0 : List (String × Int)) (k : String) :
    lookupDelta (lines.foldl (fun m l => addDelta m l.item_id l.quantity) m0) k =
      lookupDelta m0 k + billLineQtyL lines k := by
  induction lines generalizing m0 with
  | nil => simp [billLineQtyL]
  | cons hd tl ih =>
    rw [List.foldl_cons, ih, lookupDelta_addDelta]
    simp only [billLineQtyL]
    by_cases hk : hd.item_id = k
    · simp only [if_pos hk]; omega
    · simp only [if_neg hk]; omega

/-- Subtracting new line quantities from the dictionary. -/
theorem lookupDelta_foldl_sub (lines : List BillLine) (m0 : List (String × Int)) (k : String) :
    lookupDelta (lines.foldl (fun m l => addDelta m l.item_id (-l.quantity)) m0) k =
      lookupDelta m0 k - billLineQtyL lines k := by
  induction lines generalizing m0 with
  | nil => simp [billLineQtyL]
  | cons hd tl ih =>
    rw [List.foldl_cons, ih, lookupDelta_addDelta]
    simp only [billLineQtyL]
    by_cases hk : hd.item_id = k
    · simp only [if_pos hk]; omega
    · simp only [if_neg hk]; omega

/-- Folding `addDelta` keeps keys distinct, whatever the accumulated value. -/
theorem nodup_deltaKeys_foldl (g : BillLine → Int) (lines : List BillLine)
    (m0 : List (String × Int)) (h : (deltaKeys m0).Nodup) :
    (deltaKeys (lines.foldl (fun m l => addDelta m l.item_id (g l)) m0)).Nodup := by
  induction lines generalizing m0 with
  | nil => exact h
  | cons hd tl ih =>
    rw [List.foldl_cons]
    exact ih _ (nodup_deltaKeys_addDelta m0 hd.item_id (g hd) h)

/-- Keys of the folded dictionary come from the seed or the folded lines. -/
theorem mem_deltaKeys_foldl (g : BillLine → Int) (lines : List BillLine)
    (m0 : List (String × Int)) (k : String)
    (h : k ∈ deltaKeys (lines.foldl (fun m l => addDelta m l.item_id (g l)) m0)) :
    k ∈ deltaKeys m0 ∨ ∃ l ∈ lines, l.item_id = k := by
  induction lines generalizing m0 with
  | nil => exact Or.inl h
  | cons hd tl ih =>
    rw [List.foldl_cons] at h
    rcases ih _ h with h' | h'
    · rcases (mem_deltaKeys_addDelta m0 hd.item_id (g hd) k).mp h' with h'' | h''
      · exact Or.inl h''
      · exact Or.inr ⟨hd, List.mem_cons_self _ _, h''.symm⟩
    · obtain ⟨l, hl, hlk⟩ := h'
      exact Or.inr ⟨l, List.mem_cons_of_mem _ hl, hlk⟩

/-- The net delta the edit computes per item: original minus new quantity. -/
theorem lookupDelta_billDeltas (o f : List BillLine) (k : String) :
    lookupDelta (billDeltas o f) k = billLineQtyL o k - billLineQtyL f k := by
  unfold billDeltas
  rw [lookupDelta_foldl_sub, lookupDelta_foldl_add]
  simp only [lookupDelta]
  omega

/-- The delta dictionary has pairwise distinct keys. -/
theorem nodup_deltaKeys_billDeltas (o f : List BillLine) :
    (deltaKeys (billDeltas o f)).Nodup := by
  unfold billDeltas
  exact nodup_deltaKeys_foldl _ f _ (nodup_deltaKeys_foldl _ o [] (by simp [deltaKeys]))

/-- Every key of the delta dictionary names a line of one of the two bills. -/
theorem mem_deltaKeys_billDeltas (o f : List BillLine) (k : String)
    (h : k ∈ deltaKeys (billDeltas o f)) :
    (∃ l ∈ o, l.item_id = k) ∨ (∃ l ∈ f, l.item_id = k) := by
  unfold billDeltas at h
  rcases mem_deltaKeys_foldl _ f _ k h with h' | h'
  · rcases mem_deltaKeys_foldl _ o [] k h' with h'' | h''
    · simp [deltaKeys] at h''
    · exact Or.inl h''
  · exact Or.inr h'

/-- Applying the deltas does not touch the id column. -/
theorem itemIds_applyDeltas (m : List (String × Int)) (inv : List InventoryItem) :
    itemIds (applyDeltas m inv) = itemIds inv := by
  induction m generalizing inv with
  | nil => rfl
  | cons p rest ih =>
    simp only [applyDeltas, List.foldl_cons] at ih ⊢
    by_cases hz : ¬ p.2 = 0
    · rw [if_pos hz, ih,
        itemIds_updateFirstItem inv p.1
          (fun i => { i with quantity := i.quantity + p.2 }) (fun _ => rfl)]
    · rw [if_neg hz, ih]

/-- Applying a distinct-keyed dictionary of deltas shifts each per-id
quantity total by the looked-up delta. -/
theorem itemQtySum_applyDeltas (m : List (String × Int)) (inv : List InventoryItem)
    (k : String) (hnd : (deltaKeys m).Nodup)
    (hmem : ∀ p ∈ m, ¬ p.2 = 0 → p.1 ∈ itemIds inv) :
    itemQtySum (applyDeltas m inv) k = itemQtySum inv k + lookupDelta m k := by
  induction m generalizing inv with
  | nil => simp [applyDeltas, lookupDelta]
  | cons p rest ih =>
    simp only [deltaKeys, List.map_cons, List.nodup_cons] at hnd
    simp only [applyDeltas, List.foldl_cons] at ih ⊢
    have hnotk : ∀ hk : p.1 = k, lookupDelta rest k = 0 := by
      intro hk
      refine lookupDelta_not_mem rest k ?_
      rw [← hk]
      exact hnd.1
    by_cases hz : ¬ p.2 = 0
    · rw [if_pos hz]
      have hm : p.1 ∈ itemIds inv := hmem p (List.mem_cons_self _ _) hz
      have hrest : ∀ q ∈ rest, ¬ q.2 = 0 →
          q.1 ∈ itemIds (updateFirstItem inv p.1
            (fun i => { i with quantity := i.quantity + p.2 })) := by
        intro q hq hqz
        rw [itemIds_updateFirstItem inv p.1
          (fun i => { i with quantity := i.quantity + p.2 }) (fun _ => rfl)]
        exact hmem q (List.mem_cons_of_mem _ hq) hqz
      rw [ih _ hnd.2 hrest,
        itemQtySum_updateFirstItem inv p.1 k
          (fun i => { i with quantity := i.quantity + p.2 }) p.2
          (fun _ => rfl) (fun _ => rfl) hm]
      simp only [lookupDelta]
      by_cases hk : p.1 = k
      · rw [if_pos hk, if_pos hk]
        have := hnotk hk
        omega
      · rw [if_neg hk, if_neg hk]; omega
    · rw [if_neg hz]
      have hz' : p.2 = 0 := not_not.mp hz
      rw [ih _ hnd.2 (fun q hq hqz => hmem q (List.mem_cons_of_mem _ hq) hqz)]
      simp only [lookupDelta]
      by_cases hk : p.1 = k
      · rw [if_pos hk]
        have := hnotk hk
        omega
      · rw [if_neg hk]

/-- A dictionary of all-zero deltas changes nothing. -/
theorem applyDeltas_all_zero (m : List (String × Int)) (inv : List InventoryItem)
    (h : ∀ p ∈ m, p.2 = 0) : applyDeltas m inv = inv := by
  induction m generalizing inv with
  | nil => rfl
  | cons p rest ih =>
    simp only [applyDeltas, List.foldl_cons] at ih ⊢
    rw [if_neg (not_not_intro (h p (List.mem_cons_self _ _)))]
    exact ih inv (fun q hq => h q (List.mem_cons_of_mem _ hq))

/-- Restoring a line's stock changes no purchase price. -/
theorem purchasePriceOf_restoreLine (inv : List InventoryItem) (l : BillLine) (k : String) :
    purchasePriceOf (restoreLine inv l) k = purchasePriceOf inv k :=
  purchasePriceOf_updateFirstItem inv l.item_id k _ (fun _ => rfl) (fun _ => rfl)

/-- The reversal entries only depend on the inventory through its per-id
purchase prices. -/
theorem reversalEntries_congr (inv1 inv2 : List InventoryItem) (billId : String)
    (items : List BillLine)
    (h : ∀ k, purchasePriceOf inv1 k = purchasePriceOf inv2 k) :
    reversalEntries inv1 billId items = reversalEntries inv2 billId items := by
  induction items with
  | nil => rfl
  | cons hd tl ih =>
    simp only [reversalEntries, List.map_cons] at ih ⊢
    rw [h, ih]

/-- Full specification of the bill-deletion loop: it succeeds whenever every
line references an existing item, touches no bill, appends exactly one
reversal entry per line priced at the pre-deletion purchase price, and adds
each line's quantity back to the per-id stock total. -/
theorem deleteBillLoop_spec (billId : String) (items : List BillLine) (st : DBState)
    (hex : ∀ l ∈ items, l.item_id ∈ itemIds st.inventory) :
    ∃ st', deleteBillLoop billId items st = some st' ∧
      st'.bills = st.bills ∧
      st'.logs = st.logs ++ reversalEntries st.inventory billId items ∧
      itemIds st'.inventory = itemIds st.inventory ∧
      (∀ k, purchasePriceOf st'.inventory k = purchasePriceOf st.inventory k) ∧
      (∀ k, itemQtySum st'.inventory k = itemQtySum st.inventory k + billLineQtyL items k) := by
  induction items generalizing st with
  | nil =>
    exact ⟨st, rfl, rfl, by simp [reversalEntries], rfl, fun k => rfl,
      fun k => by simp [billLineQtyL]⟩
  | cons hd tl ih =>
    have h1 : hd.item_id ∈ itemIds st.inventory := hex hd (List.mem_cons_self _ _)
    have hmem1 : hd.item_id ∈ itemIds (restoreLine st.inventory hd) := by
      rw [itemIds_restoreLine]; exact h1
    obtain ⟨j, hj⟩ := findItem_isSome_of_mem hmem1
    have hjp : j.purchase_price = purchasePriceOf st.inventory hd.item_id := by
      have hinv : purchasePriceOf (restoreLine st.inventory hd) hd.item_id =
          purchasePriceOf st.inventory hd.item_id := purchasePriceOf_restoreLine _ _ _
      rw [← hinv]
      simp [purchasePriceOf, hj]
    obtain ⟨st', hrun, hbills, hlogs, hids, hprice, hqty⟩ :=
      ih ⟨restoreLine st.inventory hd, st.bills,
          st.logs ++ [⟨hd.item_id, hd.item_name, hd.quantity,
            j.purchase_price * (hd.quantity : ℚ), reversalReason billId⟩]⟩
        (fun l hl => by
          show l.item_id ∈ itemIds (restoreLine st.inventory hd)
          rw [itemIds_restoreLine]
          exact hex l (List.mem_cons_of_mem _ hl))
    have hbills' : st'.bills = st.bills := hbills
    have hlogs' : st'.logs = (st.logs ++ [⟨hd.item_id, hd.item_name, hd.quantity,
        j.purchase_price * (hd.quantity : ℚ), reversalReason billId⟩]) ++
        reversalEntries (restoreLine st.inventory hd) billId tl := hlogs
    have hids' : itemIds st'.inventory = itemIds (restoreLine st.inventory hd) := hids
    have hprice' : ∀ k, purchasePriceOf st'.inventory k =
        purchasePriceOf (restoreLine st.inventory hd) k := hprice
    have hqty' : ∀ k, itemQtySum st'.inventory k =
        itemQtySum (restoreLine st.inventory hd) k + billLineQtyL tl k := hqty
    refine ⟨st', ?_, hbills', ?_, ?_, ?_, ?_⟩
    · simp only [deleteBillLoop, hj]
      exact hrun
    · rw [hlogs',
        reversalEntries_congr _ _ billId tl (fun k => purchasePriceOf_restoreLine _ _ _),
        List.append_assoc, List.singleton_append]
      simp only [reversalEntries, List.map_cons, hjp]
    · rw [hids', itemIds_restoreLine]
    · intro k
      rw [hprice' k]
      exact purchasePriceOf_restoreLine _ _ _
    · intro k
      rw [hqty' k, itemQtySum_restoreLine st.inventory hd k h1]
      simp only [billLineQtyL]
      by_cases hk : hd.item_id = k
      · simp only [if_pos hk]; omega
      · simp only [if_neg hk]; omega

/-! The claims. -/

/-- C6: createItem with an empty name or sellingPrice < purchasePrice fails
with a validation error and causes zero persisted state change: no
InventoryItem is inserted and no InventoryLogEntry is appended. -/
theorem c6_createItem_validation (s : DBState) (itemId itemName : String)
    (purchasePrice sellingPrice : ℚ) (qty : Int)
    (h : itemName = "" ∨ sellingPrice < purchasePrice) :
    (∃ e, createItem s itemId itemName purchasePrice sellingPrice qty = Except.error e) ∧
    runCreateItem s itemId itemName purchasePrice sellingPrice qty = s := by
  by_cases hn : itemName = ""
  · constructor
    · exact ⟨_, by unfold createItem; rw [if_pos hn]⟩
    · unfold runCreateItem createItem
      rw [if_pos hn]
  · rcases h with h | h
    · exact absurd h hn
    · constructor
      · exact ⟨_, by unfold createItem; rw [if_neg hn, if_pos h]⟩
      · unfold runCreateItem createItem
        rw [if_neg hn, if_pos h]

/-- Witness for C6 at a concrete input: selling 40 below purchase 50. -/
theorem c6_createItem_validation_witness :
    (∃ e, createItem dbEmpty "ITEM-X" "X" 50 40 1 = Except.error e) ∧
    runCreateItem dbEmpty "ITEM-X" "X" 50 40 1 = dbEmpty :=
  c6_createItem_validation dbEmpty "ITEM-X" "X" 50 40 1 (Or.inr (by norm_num))

/-- C8: adjustQuantity with delta 0 is a no-op for every item and reason: no
log entry is appended and the inventory document is untouched. -/
theorem c8_adjustQuantity_zero_noop (s : DBState) (itemId reason : String) :
    adjustQuantity s itemId 0 reason = s := by
  unfold adjustQuantity
  cases hfind : findItem s.inventory itemId with
  | none => rfl
  | some item =>
    unfold updateItem
    rw [hfind]
    simp [revalLogEntries, quantityLogEntries]

/-- C9: the business-day function maps a timestamp to its calendar date,
except that timestamps strictly before 06:00 (minute-of-day below 360) map to
the previous date; 05:30 rolls back one day, 06:01 does not (calendar dates
encoded as consecutive day indices: with 2024-03-02 as day 0, 2024-03-01 is
day -1). -/
theorem c9_business_date :
    (∀ ts : Timestamp, get_business_date ts =
      (if minutesOfDay ts < 360 then ts.day - 1 else ts.day)) ∧
    get_business_date tsHalfPastFive = tsHalfPastFive.day - 1 ∧
    get_business_date tsJustPastSix = tsJustPastSix.day := by
  refine ⟨fun ts => ?_, by norm_num [get_business_date, tsHalfPastFive],
    by norm_num [get_business_date, tsJustPastSix]⟩
  have hm := ts.minute_lt
  by_cases h : ts.hour < 6
  · unfold get_business_date
    rw [if_pos h, if_pos (show minutesOfDay ts < 360 by unfold minutesOfDay; omega)]
  · unfold get_business_date
    rw [if_neg h, if_neg (show ¬ minutesOfDay ts < 360 by unfold minutesOfDay; omega)]

/-- C10: editBill overwrites the bill's lines, totals, profit, payment
fields, customer name, timestamp and last_edited_by, but leaves created_by
exactly as recorded at creation. -/
theorem c10_editBill_preserves_created_by (s : DBState) (billId : String) (bill : Bill)
    (lines : List BillLineDraft) (tsp : ℚ) (pm ps : String) (sac : Bool)
    (cn actor : String) (now : Int)
    (hfind : findBill s.bills billId = some bill) :
    ∃ b', findBill (editBill s billId lines tsp pm ps sac cn actor now).bills billId = some b' ∧
      b'.created_by = bill.created_by ∧
      b'.last_edited_by = some actor ∧
      b'.items = lines.map stripPurchase ∧
      b'.total_purchase_cost = billPurchaseCost lines ∧
      b'.total_sell_price = tsp ∧
      b'.profit = tsp - billPurchaseCost lines ∧
      b'.payment_mode = pm ∧
      b'.payment_status = ps ∧
      b'.customer_name = (if sac then cn else "") ∧
      b'.timestamp = now := by
  refine ⟨billEditApply lines tsp pm ps sac cn actor now bill, ?_,
    rfl, rfl, rfl, rfl, rfl, rfl, rfl, rfl, rfl, rfl⟩
  have hred : (editBill s billId lines tsp pm ps sac cn actor now).bills =
      updateFirstBill s.bills billId (billEditApply lines tsp pm ps sac cn actor now) := by
    unfold editBill
    rw [hfind]
  rw [hred, findBill_updateFirstBill s.bills billId
    (billEditApply lines tsp pm ps sac cn actor now) (fun _ => rfl), hfind]
  rfl

/-- Witness for C10: editing the example bill to 300 at UPI/Unpaid by user
"bob" keeps created_by = "admin". -/
theorem c10_editBill_preserves_created_by_witness :
    ∃ b', findBill (editBill stateA7 "BILL-1" [draftA3] 300 "UPI" "Unpaid" false "" "bob" 5).bills
        "BILL-1" = some b' ∧
      b'.created_by = billA3.created_by ∧
      b'.last_edited_by = some "bob" ∧
      b'.items = [draftA3].map stripPurchase ∧
      b'.total_purchase_cost = billPurchaseCost [draftA3] ∧
      b'.total_sell_price = 300 ∧
      b'.profit = 300 - billPurchaseCost [draftA3] ∧
      b'.payment_mode = "UPI" ∧
      b'.payment_status = "Unpaid" ∧
      b'.customer_name = (if false then "" else "") ∧
      b'.timestamp = 5 :=
  c10_editBill_preserves_created_by stateA7 "BILL-1" billA3 [draftA3] 300 "UPI" "Unpaid"
    false "" "bob" 5 (by norm_num +decide [findBill, stateA7, billA3])

/-- C7: editing a bill to exactly the same persisted line items and
quantities as before produces zero net mutation of every inventory
document - the internally computed add-back/subtract deltas all cancel. -/
theorem c7_editBill_same_lines (s : DBState) (billId : String) (bill : Bill)
    (lines : List BillLineDraft) (tsp : ℚ) (pm ps : String) (sac : Bool)
    (cn actor : String) (now : Int)
    (hfind : findBill s.bills billId = some bill)
    (hsame : lines.map stripPurchase = bill.items) :
    (editBill s billId lines tsp pm ps sac cn actor now).inventory = s.inventory := by
  have hred : (editBill s billId lines tsp pm ps sac cn actor now).inventory =
      applyDeltas (billDeltas bill.items (lines.map stripPurchase)) s.inventory := by
    unfold editBill
    rw [hfind]
  rw [hred, hsame]
  apply applyDeltas_all_zero
  intro p hp
  have hlook := lookupDelta_of_mem _ p (nodup_deltaKeys_billDeltas bill.items bill.items) hp
  rw [lookupDelta_billDeltas] at hlook
  omega

/-- Witness for C7: re-submitting the example bill with its original single
3-unit line leaves the inventory exactly as it was. -/
theorem c7_editBill_same_lines_witness :
    (editBill stateA7 "BILL-1" [draftA3] 240 "Cash" "Paid" false "" "admin" 7).inventory =
      stateA7.inventory :=
  c7_editBill_same_lines stateA7 "BILL-1" billA3 [draftA3] 240 "Cash" "Paid" false "" "admin" 7
    (by norm_num +decide [findBill, stateA7, billA3])
    (by norm_num +decide [stripPurchase, draftA3, lineA3, billA3])

/-- C4 (amended): when the submitted purchase price differs from the current
one AND the revaluation product (new - old) * preChangeQuantity is nonzero,
the update appends exactly one Price Revaluation entry with quantity_change 0
and purchase_cost_change computed from the pre-change quantity, placed before
any quantity-change entry of the same call; the item's purchase price is then
the new one.  (When the product is zero - e.g. the pre-change quantity is
0 - the code appends nothing; see the counterexample.) -/
theorem c4_revaluation_amended (s : DBState) (itemId : String) (item : InventoryItem)
    (qc : Int) (reason : String) (npp nsp : ℚ)
    (hfind : findItem s.inventory itemId = some item)
    (hne : ¬ npp = item.purchase_price)
    (hnz : ¬ (npp - item.purchase_price) * (item.quantity : ℚ) = 0) :
    (updateItem s itemId qc reason npp nsp).logs =
      s.logs ++ [⟨item.item_id, item.item_name, 0,
        (npp - item.purchase_price) * (item.quantity : ℚ), "Price Revaluation"⟩]
        ++ quantityLogEntries item qc reason npp ∧
    purchasePriceOf (updateItem s itemId qc reason npp nsp).inventory itemId = npp := by
  have hrev : revalLogEntries item npp = [⟨item.item_id, item.item_name, 0,
      (npp - item.purchase_price) * (item.quantity : ℚ), "Price Revaluation"⟩] := by
    unfold revalLogEntries
    rw [if_pos hne, if_pos hnz]
  constructor
  · have hlogs : (updateItem s itemId qc reason npp nsp).logs =
        s.logs ++ revalLogEntries item npp ++ quantityLogEntries item qc reason npp := by
      unfold updateItem
      rw [hfind]
    rw [hlogs, hrev]
  · have hinv : (updateItem s itemId qc reason npp nsp).inventory =
        updateFirstItem s.inventory itemId (applyItemUpdate item qc reason npp nsp) := by
      unfold updateItem
      rw [hfind]
      show (if (¬ npp = item.purchase_price ∨ ¬ nsp = item.selling_price) ∨
          (¬ qc = 0 ∧ ¬ reason = "No Change") then
            updateFirstItem s.inventory itemId (applyItemUpdate item qc reason npp nsp)
          else s.inventory) =
        updateFirstItem s.inventory itemId (applyItemUpdate item qc reason npp nsp)
      exact if_pos (Or.inl (Or.inl hne))
    rw [hinv]
    unfold purchasePriceOf
    rw [findItem_updateFirstItem s.inventory itemId itemId
      (applyItemUpdate item qc reason npp nsp) (fun _ => rfl), hfind]
    have hid : item.item_id = itemId := (findItem_eq_some hfind).2
    show (if item.item_id = itemId then applyItemUpdate item qc reason npp nsp item
        else item).purchase_price = npp
    rw [if_pos hid]
    show (if ¬ npp = item.purchase_price then npp else item.purchase_price) = npp
    rw [if_pos hne]

/-- Witness for C4: purchase price 50 to 60 at quantity 10 appends one entry
with quantity_change 0 and purchase_cost_change 100, and sets the price. -/
theorem c4_revaluation_amended_witness :
    ((updateItem stateA10 "ITEM-A" 0 "No Change" 60 80).logs =
      stateA10.logs ++ [⟨itemA.item_id, itemA.item_name, 0,
        ((60 : ℚ) - itemA.purchase_price) * (itemA.quantity : ℚ), "Price Revaluation"⟩]
        ++ quantityLogEntries itemA 0 "No Change" 60 ∧
      purchasePriceOf (updateItem stateA10 "ITEM-A" 0 "No Change" 60 80).inventory "ITEM-A" = 60) ∧
    (updateItem stateA10 "ITEM-A" 0 "No Change" 60 80).logs =
      [initLogA, ⟨"ITEM-A", "A", 0, 100, "Price Revaluation"⟩] :=
  ⟨c4_revaluation_amended stateA10 "ITEM-A" itemA 0 "No Change" 60 80
      (by norm_num +decide [findItem, stateA10, itemA])
      (by norm_num [itemA])
      (by norm_num [itemA]),
    by norm_num +decide [updateItem, stateA10, itemA, initLogA, findItem,
      revalLogEntries, quantityLogEntries]⟩

/-- Counterexample to C4 as stated: with on-hand quantity 0 the purchase
price changes from 50 to 60 yet NO Price Revaluation entry is appended (the
code suppresses the entry when the computed cost change is 0), although the
claim promises one for every update whose new purchase price differs. -/
theorem c4_revaluation_counterexample :
    ¬ (60 : ℚ) = itemZ.purchase_price ∧
    findItem stateZ.inventory "ITEM-Z" = some itemZ ∧
    (updateItem stateZ "ITEM-Z" 0 "No Change" 60 80).logs = stateZ.logs ∧
    stateZ.logs = [] := by
  refine ⟨by norm_num [itemZ], by norm_num +decide [findItem, stateZ, itemZ], ?_, rfl⟩
  norm_num +decide [updateItem, stateZ, itemZ, findItem, revalLogEntries, quantityLogEntries]

/-- C5 (amended): for a nonzero delta on an existing item, Restock with a
negative delta appends no log entry at all, and Correction appends the entry
with purchase_cost_change = currentPurchasePrice * delta for either sign of
the delta - provided the current purchase price is nonzero.  (With purchase
price 0 the computed cost change is 0 and the code suppresses the Correction
entry; see the counterexample.) -/
theorem c5_adjust_amended (s : DBState) (itemId : String) (item : InventoryItem)
    (qc : Int) (reason : String)
    (hfind : findItem s.inventory itemId = some item)
    (hqc : ¬ qc = 0) :
    (reason = "Restock" → qc < 0 →
      (adjustQuantity s itemId qc reason).logs = s.logs) ∧
    (reason = correctionReason → ¬ item.purchase_price = 0 →
      (adjustQuantity s itemId qc reason).logs =
        s.logs ++ [⟨item.item_id, item.item_name, qc,
          item.purchase_price * (qc : ℚ), correctionReason⟩]) := by
  have hlogs : (adjustQuantity s itemId qc reason).logs =
      s.logs ++ revalLogEntries item item.purchase_price
        ++ quantityLogEntries item qc reason item.purchase_price := by
    unfold adjustQuantity
    rw [hfind]
    unfold updateItem
    rw [hfind]
  have hrev : revalLogEntries item item.purchase_price = [] := by
    unfold revalLogEntries
    rw [if_neg (not_not_intro rfl)]
  constructor
  · intro hres hneg
    subst hres
    have hacc : adjustCostChange "Restock" item.purchase_price item.purchase_price qc = 0 := by
      unfold adjustCostChange
      rw [if_neg (fun hc => absurd hc.2 (by omega)), if_neg (by decide)]
    have hq : quantityLogEntries item qc "Restock" item.purchase_price = [] := by
      unfold quantityLogEntries
      rw [if_pos ⟨hqc, by decide⟩, hacc, if_neg (not_not_intro rfl)]
    rw [hlogs, hrev, hq]
    simp
  · intro hcor hpp
    subst hcor
    have hacc : adjustCostChange correctionReason item.purchase_price item.purchase_price qc =
        item.purchase_price * (qc : ℚ) := by
      unfold adjustCostChange
      rw [if_neg (fun hc => absurd hc.1 (by decide)), if_pos rfl]
    have hnz : ¬ item.purchase_price * (qc : ℚ) = 0 := by
      intro hc
      rcases mul_eq_zero.mp hc with h | h
      · exact hpp h
      · exact hqc (by exact_mod_cast h)
    have hq : quantityLogEntries item qc correctionReason item.purchase_price =
        [⟨item.item_id, item.item_name, qc, item.purchase_price * (qc : ℚ), correctionReason⟩] := by
      unfold quantityLogEntries
      rw [if_pos ⟨hqc, by decide⟩, hacc, if_pos hnz]
    rw [hlogs, hrev, hq]
    simp

/-- Witness for C5: a Restock of -2 on the example item writes no log entry. -/
theorem c5_adjust_amended_witness :
    (adjustQuantity stateA10 "ITEM-A" (-2) "Restock").logs = stateA10.logs :=
  (c5_adjust_amended stateA10 "ITEM-A" itemA (-2) "Restock"
    (by norm_num +decide [findItem, stateA10, itemA]) (by norm_num)).1 rfl (by norm_num)

/-- Counterexample to C5 as stated: a Correction of +5 on an item whose
purchase price is 0 appends NO log entry (the claim says Correction always
logs), even though the quantity is mutated from 4 to 9. -/
theorem c5_adjust_counterexample :
    findItem stateF.inventory "ITEM-F" = some itemF ∧
    itemF.purchase_price = 0 ∧
    (adjustQuantity stateF "ITEM-F" 5 correctionReason).logs = stateF.logs ∧
    stateF.logs = [] ∧
    (adjustQuantity stateF "ITEM-F" 5 correctionReason).inventory =
      [⟨"ITEM-F", "F", 0, 10, 9⟩] := by
  refine ⟨by norm_num +decide [findItem, stateF, itemF], by norm_num [itemF], ?_, rfl, ?_⟩
  · norm_num +decide [adjustQuantity, updateItem, stateF, itemF, findItem, revalLogEntries,
      quantityLogEntries, adjustCostChange, correctionReason]
  · norm_num +decide [adjustQuantity, updateItem, stateF, itemF, findItem, revalLogEntries,
      quantityLogEntries, adjustCostChange, correctionReason, updateFirstItem, applyItemUpdate]

/-- Drafted lines whose purchase prices were read from the inventory cost
exactly what the same quantities cost at the current per-id prices. -/
theorem billPurchaseCost_snapshot (inv : List InventoryItem) (lines : List BillLineDraft)
    (hsnap : ∀ l ∈ lines, ∃ i, findItem inv l.item_id = some i ∧
      l.purchase_price = i.purchase_price) :
    billPurchaseCost lines = snapPurchaseCost inv lines := by
  induction lines with
  | nil => rfl
  | cons hd tl ih =>
    obtain ⟨i, hi, hp⟩ := hsnap hd (List.mem_cons_self _ _)
    have hprice : purchasePriceOf inv hd.item_id = i.purchase_price := by
      unfold purchasePriceOf
      rw [hi]
    simp only [billPurchaseCost, snapPurchaseCost]
    rw [ih (fun l hl => hsnap l (List.mem_cons_of_mem _ hl)), hp, hprice]

/-- C2: createBill with at least one drafted line (prices snapshotted from
the inventory at call time) persists the bill with total_purchase_cost equal
to the sum of quantity times snapshot purchase price, profit equal to the
sell total minus that cost, purchase_price stripped from every persisted
line, appends no InventoryLogEntry, and decrements each referenced item's
quantity by the line quantity. -/
theorem c2_createBill (s : DBState) (billId : String) (lines : List BillLineDraft)
    (tsp : ℚ) (pm ps : String) (sac : Bool) (cn actor : String) (now : Int)
    (hne : ¬ lines = [])
    (hsnap : ∀ l ∈ lines, ∃ i, findItem s.inventory l.item_id = some i ∧
      l.purchase_price = i.purchase_price) :
    ∃ s', createBill s billId lines tsp pm ps sac cn actor now = Except.ok s' ∧
      s'.logs = s.logs ∧
      s'.bills = s.bills ++ [⟨billId, lines.map stripPurchase, billPurchaseCost lines, tsp,
        tsp - billPurchaseCost lines, pm, ps, (if sac then cn else ""), actor, none, now⟩] ∧
      billPurchaseCost lines = snapPurchaseCost s.inventory lines ∧
      (∀ k, itemQtySum s'.inventory k =
        itemQtySum s.inventory k - billLineQtyL (lines.map stripPurchase) k) := by
  have hex : ∀ l ∈ lines.map stripPurchase, l.item_id ∈ itemIds s.inventory := by
    intro l hl
    obtain ⟨l0, hl0, rfl⟩ := List.mem_map.mp hl
    obtain ⟨i, hi, _⟩ := hsnap l0 hl0
    exact mem_itemIds_of_findItem hi
  refine ⟨⟨(lines.map stripPurchase).foldl deductLine s.inventory,
    s.bills ++ [⟨billId, lines.map stripPurchase, billPurchaseCost lines, tsp,
      tsp - billPurchaseCost lines, pm, ps, (if sac then cn else ""), actor, none, now⟩],
    s.logs⟩, ?_, rfl, rfl, billPurchaseCost_snapshot s.inventory lines hsnap, ?_⟩
  · unfold createBill
    rw [if_neg hne]
  · intro k
    exact itemQtySum_foldl_deductLine (lines.map stripPurchase) s.inventory k hex

/-- Witness for C2 at the section-8 example: 3 units of item A (quantity 10,
purchase 50, selling 80) sold for 240 leave the item at quantity 7 and the
persisted bill with cost 150 and profit 90. -/
theorem c2_createBill_witness :
    (∃ s', createBill stateA10 "BILL-1" [draftA3] 240 "Cash" "Paid" false "" "admin" 0 =
        Except.ok s' ∧
      s'.logs = stateA10.logs ∧
      s'.bills = stateA10.bills ++ [⟨"BILL-1", [draftA3].map stripPurchase,
        billPurchaseCost [draftA3], 240, 240 - billPurchaseCost [draftA3], "Cash", "Paid",
        (if false then "" else ""), "admin", none, 0⟩] ∧
      billPurchaseCost [draftA3] = snapPurchaseCost stateA10.inventory [draftA3] ∧
      (∀ k, itemQtySum s'.inventory k =
        itemQtySum stateA10.inventory k - billLineQtyL ([draftA3].map stripPurchase) k)) ∧
    createBill stateA10 "BILL-1" [draftA3] 240 "Cash" "Paid" false "" "admin" 0 =
      Except.ok stateA7 ∧
    stateA7.inventory = [itemA7] ∧ itemA7.quantity = 7 ∧ billA3.profit = 90 := by
  refine ⟨c2_createBill stateA10 "BILL-1" [draftA3] 240 "Cash" "Paid" false "" "admin" 0
    (by norm_num) ?_, ?_, rfl, rfl, rfl⟩
  · intro l hl
    rcases List.mem_singleton.mp hl with rfl
    exact ⟨itemA, by norm_num +decide [findItem, stateA10, itemA],
      by norm_num [draftA3, itemA]⟩
  · norm_num +decide [createBill, stateA10, stateA7, itemA, itemA7, billA3, lineA3, initLogA,
      draftA3, billPurchaseCost, stripPurchase, deductLine, updateFirstItem]

/-- C3: deleting an existing bill (whose lines reference existing items)
increments each referenced item's quantity total by the line quantity,
appends per line one reversal entry with quantity_change equal to the line
quantity and purchase_cost_change equal to the item's deletion-time purchase
price times the line quantity, and removes the bill. -/
theorem c3_deleteBill (s : DBState) (billId : String) (bill : Bill)
    (hfind : findBill s.bills billId = some bill)
    (hex : ∀ l ∈ bill.items, l.item_id ∈ itemIds s.inventory) :
    ∃ s', deleteBill s billId = some s' ∧
      s'.bills = deleteFirstBill s.bills billId ∧
      s'.logs = s.logs ++ reversalEntries s.inventory billId bill.items ∧
      (∀ k, itemQtySum s'.inventory k = itemQtySum s.inventory k + billLineQtyL bill.items k) := by
  obtain ⟨st', hrun, hbills, hlogs, hids, hprice, hqty⟩ := deleteBillLoop_spec billId bill.items s hex
  refine ⟨{ st' with bills := deleteFirstBill st'.bills billId }, ?_, ?_, hlogs, hqty⟩
  · unfold deleteBill
    rw [hfind]
    show (deleteBillLoop billId bill.items s).map
        (fun st => { st with bills := deleteFirstBill st.bills billId }) = _
    rw [hrun]
    rfl
  · show deleteFirstBill st'.bills billId = deleteFirstBill s.bills billId
    rw [hbills]

/-- Witness for C3 at the section-8 example: deleting the 3-unit bill on
item A returns the quantity to 10 and appends the reversal entry with
quantity_change 3 and purchase_cost_change 150. -/
theorem c3_deleteBill_witness :
    (∃ s', deleteBill stateA7 "BILL-1" = some s' ∧
      s'.bills = deleteFirstBill stateA7.bills "BILL-1" ∧
      s'.logs = stateA7.logs ++ reversalEntries stateA7.inventory "BILL-1" billA3.items ∧
      (∀ k, itemQtySum s'.inventory k =
        itemQtySum stateA7.inventory k + billLineQtyL billA3.items k)) ∧
    deleteBill stateA7 "BILL-1" = some stateA10After ∧
    stateA10After.inventory = [itemA] ∧ itemA.quantity = 10 ∧
    reversalLogA.quantity_change = 3 ∧ reversalLogA.purchase_cost_change = 150 := by
  refine ⟨c3_deleteBill stateA7 "BILL-1" billA3
    (by norm_num +decide [findBill, stateA7, billA3]) ?_, ?_, rfl, rfl, rfl, rfl⟩
  · intro l hl
    rcases List.mem_singleton.mp hl with rfl
    norm_num +decide [itemIds, stateA7, itemA7, lineA3, billA3]
  · norm_num +decide [deleteBill, stateA7, stateA10After, itemA, itemA7, billA3, lineA3,
      initLogA, reversalLogA, findBill, deleteBillLoop, restoreLine, updateFirstItem,
      findItem, deleteFirstBill, reversalReason]

/-- C1 (amended): the section-3 invariant - per-item quantity total equals
the log total minus the open-bill reservation total - is preserved by
createItem, by updateItem (price revaluation, and quantity adjustments that
are accompanied by a log entry), by createBill, by editBill and by
resetAllStock, under the running system's side conditions that bill lines
reference existing inventory items.  deleteBill is excluded: it always
breaks the invariant (see the counterexample), as do quantity adjustments
whose log entry is suppressed (Restock with negative delta, or a zero
computed cost change). -/
theorem c1_invariant_amended (s : DBState) (op : LedgerOp) (s' : DBState) (itemId : String)
    (hpres : preservingOp s op) (happ : applyOp s op = some s')
    (hinv : ledgerInvariant s itemId) : ledgerInvariant s' itemId := by
  unfold ledgerInvariant at hinv
  cases op with
  | create iid nm pp sp q =>
    by_cases hn : nm = ""
    · simp [applyOp, createItem, if_pos hn, Except.toOption] at happ
    · by_cases hlt : sp < pp
      · simp [applyOp, createItem, if_neg hn, if_pos hlt, Except.toOption] at happ
      · simp only [applyOp, createItem, if_neg hn, if_neg hlt, Except.toOption,
          Option.some.injEq] at happ
        subst happ
        unfold ledgerInvariant
        show itemQtySum (s.inventory ++ [⟨iid, nm, pp, sp, q⟩]) itemId =
          logQuantitySum (s.logs ++ [⟨iid, nm, q, pp * (q : ℚ), "Initial Stock"⟩]) itemId -
          openBillQuantitySum s.bills itemId
        rw [itemQtySum_append, logQuantitySum_append]
        simp only [itemQtySum, logQuantitySum]
        by_cases hid : iid = itemId
        · simp only [if_pos hid]
          omega
        · simp only [if_neg hid]
          omega
  | update iid qc reason npp nsp =>
    simp only [applyOp, Option.some.injEq] at happ
    subst happ
    unfold ledgerInvariant
    simp only [preservingOp] at hpres
    cases hfind : findItem s.inventory iid with
    | none =>
      have hid : updateItem s iid qc reason npp nsp = s := by
        unfold updateItem
        rw [hfind]
      rw [hid]
      exact hinv
    | some item =>
      rw [hfind] at hpres
      simp only at hpres
      have hiid : item.item_id = iid := (findItem_eq_some hfind).2
      have hmem : iid ∈ itemIds s.inventory := mem_itemIds_of_findItem hfind
      have hred : updateItem s iid qc reason npp nsp = { s with
          logs := s.logs ++ revalLogEntries item npp
            ++ quantityLogEntries item qc reason npp,
          inventory :=
            if (¬ npp = item.purchase_price ∨ ¬ nsp = item.selling_price)
                ∨ (¬ qc = 0 ∧ ¬ reason = "No Change") then
              updateFirstItem s.inventory iid (applyItemUpdate item qc reason npp nsp)
            else s.inventory } := by
        unfold updateItem
        rw [hfind]
      rw [hred]
      have hrev0 : logQuantitySum (revalLogEntries item npp) itemId = 0 := by
        unfold revalLogEntries
        by_cases h1 : ¬ npp = item.purchase_price
        · rw [if_pos h1]
          by_cases h2 : ¬ (npp - item.purchase_price) * (item.quantity : ℚ) = 0
          · rw [if_pos h2]
            simp [logQuantitySum]
          · rw [if_neg h2]
            rfl
        · rw [if_neg h1]
          rfl
      show itemQtySum (if (¬ npp = item.purchase_price ∨ ¬ nsp = item.selling_price)
            ∨ (¬ qc = 0 ∧ ¬ reason = "No Change") then
          updateFirstItem s.inventory iid (applyItemUpdate item qc reason npp nsp)
        else s.inventory) itemId =
        logQuantitySum (s.logs ++ revalLogEntries item npp
          ++ quantityLogEntries item qc reason npp) itemId -
        openBillQuantitySum s.bills itemId
      rw [logQuantitySum_append, logQuantitySum_append, hrev0]
      by_cases hInc : ¬ qc = 0 ∧ ¬ reason = "No Change"
      · have hcc : ¬ adjustCostChange reason item.purchase_price npp qc = 0 := by
          rcases hpres with h | h | h
          · exact absurd h hInc.1
          · exact absurd h hInc.2
          · exact h
        have hq : quantityLogEntries item qc reason npp =
            [⟨item.item_id, item.item_name, qc,
              adjustCostChange reason item.purchase_price npp qc, reason⟩] := by
          unfold quantityLogEntries
          rw [if_pos hInc, if_pos hcc]
        rw [hq, if_pos (Or.inr hInc),
          itemQtySum_updateFirstItem s.inventory iid itemId
            (applyItemUpdate item qc reason npp nsp) qc (fun _ => rfl)
            (fun i => by
              show (if ¬ qc = 0 ∧ ¬ reason = "No Change" then i.quantity + qc
                else i.quantity) = i.quantity + qc
              rw [if_pos hInc]) hmem]
        simp only [logQuantitySum, hiid]
        by_cases hid : iid = itemId
        · simp only [if_pos hid]
          omega
        · simp only [if_neg hid]
          omega
      · have hq : quantityLogEntries item qc reason npp = [] := by
          unfold quantityLogEntries
          rw [if_neg hInc]
        rw [hq]
        simp only [logQuantitySum]
        by_cases hC : (¬ npp = item.purchase_price ∨ ¬ nsp = item.selling_price)
            ∨ (¬ qc = 0 ∧ ¬ reason = "No Change")
        · rw [if_pos hC,
            itemQtySum_updateFirstItem s.inventory iid itemId
              (applyItemUpdate item qc reason npp nsp) 0 (fun _ => rfl)
              (fun i => by
                show (if ¬ qc = 0 ∧ ¬ reason = "No Change" then i.quantity + qc
                  else i.quantity) = i.quantity + 0
                rw [if_neg hInc]
                omega) hmem]
          simp only [ite_self]
          omega
        · rw [if_neg hC]
          omega
  | mkBill billId lines tsp pm ps sac cn actor now =>
    simp only [preservingOp] at hpres
    by_cases hemp : lines = []
    · simp [applyOp, createBill, if_pos hemp, Except.toOption] at happ
    · simp only [applyOp, createBill, if_neg hemp, Except.toOption,
        Option.some.injEq] at happ
      subst happ
      unfold ledgerInvariant
      have hex : ∀ l ∈ lines.map stripPurchase, l.item_id ∈ itemIds s.inventory := by
        intro l hl
        obtain ⟨l0, hl0, rfl⟩ := List.mem_map.mp hl
        exact hpres l0 hl0
      show itemQtySum ((lines.map stripPurchase).foldl deductLine s.inventory) itemId =
        logQuantitySum s.logs itemId -
        openBillQuantitySum (s.bills ++ [⟨billId, lines.map stripPurchase,
          billPurchaseCost lines, tsp, tsp - billPurchaseCost lines, pm, ps,
          (if sac then cn else ""), actor, none, now⟩]) itemId
      rw [itemQtySum_foldl_deductLine _ _ _ hex, openBillQuantitySum_append]
      simp only [openBillQuantitySum, billLineQtyL]
      omega
  | edBill billId lines tsp pm ps sac cn actor now =>
    simp only [applyOp, Option.some.injEq] at happ
    subst happ
    unfold ledgerInvariant
    simp only [preservingOp] at hpres
    obtain ⟨hlines, horig⟩ := hpres
    cases hfind : findBill s.bills billId with
    | none =>
      have hid : editBill s billId lines tsp pm ps sac cn actor now = s := by
        unfold editBill
        rw [hfind]
      rw [hid]
      exact hinv
    | some bill =>
      rw [hfind] at horig
      simp only at horig
      have hred : editBill s billId lines tsp pm ps sac cn actor now = { s with
          inventory := applyDeltas (billDeltas bill.items (lines.map stripPurchase)) s.inventory,
          bills := updateFirstBill s.bills billId
            (billEditApply lines tsp pm ps sac cn actor now) } := by
        unfold editBill
        rw [hfind]
      rw [hred]
      have hmm : ∀ p ∈ billDeltas bill.items (lines.map stripPurchase),
          ¬ p.2 = 0 → p.1 ∈ itemIds s.inventory := by
        intro p hp _
        have hk : p.1 ∈ deltaKeys (billDeltas bill.items (lines.map stripPurchase)) :=
          List.mem_map_of_mem _ hp
        rcases mem_deltaKeys_billDeltas _ _ _ hk with ⟨l, hl, hlk⟩ | ⟨l, hl, hlk⟩
        · exact hlk ▸ horig l hl
        · obtain ⟨l0, hl0, rfl⟩ := List.mem_map.mp hl
          exact hlk ▸ hlines l0 hl0
      show itemQtySum (applyDeltas (billDeltas bill.items (lines.map stripPurchase))
          s.inventory) itemId =
        logQuantitySum s.logs itemId -
        openBillQuantitySum (updateFirstBill s.bills billId
          (billEditApply lines tsp pm ps sac cn actor now)) itemId
      rw [itemQtySum_applyDeltas _ _ _
          (nodup_deltaKeys_billDeltas bill.items (lines.map stripPurchase)) hmm,
        lookupDelta_billDeltas,
        openBillQuantitySum_updateFirstBill s.bills billId _ bill itemId hfind]
      show itemQtySum s.inventory itemId +
          (billLineQtyL bill.items itemId - billLineQtyL (lines.map stripPurchase) itemId) =
        logQuantitySum s.logs itemId -
        (openBillQuantitySum s.bills itemId - billLineQtyL bill.items itemId +
          billLineQtyL (lines.map stripPurchase) itemId)
      omega
  | delBill billId =>
    exact False.elim hpres
  | reset =>
    simp only [applyOp, Option.some.injEq] at happ
    subst happ
    unfold ledgerInvariant
    simp only [preservingOp] at hpres
    show itemQtySum (s.bills.foldl (fun inv b => b.items.foldl restoreLine inv)
        s.inventory) itemId =
      logQuantitySum s.logs itemId - openBillQuantitySum [] itemId
    rw [itemQtySum_foldl_bills s.bills s.inventory itemId hpres]
    simp only [openBillQuantitySum]
    omega

/-- Witness for the amended C1: creating item A in the empty store is one of
the covered operations and establishes the invariant on the resulting
state. -/
theorem c1_invariant_amended_witness :
    applyOp dbEmpty (LedgerOp.create "ITEM-A" "A" 50 80 10) = some stateA10 ∧
    ledgerInvariant stateA10 "ITEM-A" := by
  have happ : applyOp dbEmpty (LedgerOp.create "ITEM-A" "A" 50 80 10) = some stateA10 := by
    norm_num +decide [applyOp, createItem, dbEmpty, stateA10, itemA, initLogA, Except.toOption]
  exact ⟨happ, c1_invariant_amended dbEmpty (LedgerOp.create "ITEM-A" "A" 50 80 10) stateA10
    "ITEM-A" True.intro happ
    (by norm_num [ledgerInvariant, dbEmpty, itemQtySum, logQuantitySum, openBillQuantitySum])⟩

/-- Counterexample to C1 as stated: in the reachable run createItem(A, 50,
80, 10); createBill(3 of A at 240) the invariant holds (quantity 7 = log
total 10 minus open reservation 3), but the very next operation deleteBill -
one of the mutating operations the claim quantifies over - leaves item A at
quantity 10 while
the log total minus the open reservation total is 13: the reversal log entry
adds the deleted quantity to the log while the deletion also removes the
bill's open reservation, so the right-hand side gains the quantity twice. -/
theorem c1_invariant_counterexample :
    createItem dbEmpty "ITEM-A" "A" 50 80 10 = Except.ok stateA10 ∧
    createBill stateA10 "BILL-1" [draftA3] 240 "Cash" "Paid" false "" "admin" 0 =
      Except.ok stateA7 ∧
    ledgerInvariant stateA7 "ITEM-A" ∧
    applyOp stateA7 (LedgerOp.delBill "BILL-1") = some stateA10After ∧
    ¬ ledgerInvariant stateA10After "ITEM-A" ∧
    stateA10After.inventory = [itemA] ∧
    itemA.quantity = 10 ∧
    logQuantitySum stateA10After.logs "ITEM-A" -
      openBillQuantitySum stateA10After.bills "ITEM-A" = 13 := by
  refine ⟨?_, ?_, ?_, ?_, ?_, rfl, rfl, ?_⟩
  · norm_num +decide [createItem, dbEmpty, stateA10, itemA, initLogA]
  · norm_num +decide [createBill, stateA10, stateA7, itemA, itemA7, billA3, lineA3, initLogA,
      draftA3, billPurchaseCost, stripPurchase, deductLine, updateFirstItem]
  · norm_num +decide [ledgerInvariant, stateA7, itemA7, billA3, lineA3, initLogA, itemQtySum,
      logQuantitySum, openBillQuantitySum, billLineQtyL]
  · show deleteBill stateA7 "BILL-1" = some stateA10After
    norm_num +decide [deleteBill, stateA7, stateA10After, itemA, itemA7, billA3, lineA3,
      initLogA, reversalLogA, findBill, deleteBillLoop, restoreLine, updateFirstItem,
      findItem, deleteFirstBill, reversalReason]
  · norm_num +decide [ledgerInvariant, stateA10After, itemA, initLogA, reversalLogA,
      itemQtySum, logQuantitySum, openBillQuantitySum, billLineQtyL]
  · norm_num +decide [stateA10After, initLogA, reversalLogA, logQuantitySum,
      openBillQuantitySum]
